import Mathlib

/-!
Verification of the nutrition-claim-validator core: a shallow embedding of
the phrase normalizer (`src/normalizer.py`), the query synthesizer
(`src/evidence.py`), the analysis parser (`src/claim_extractor.py`) and the
truth-score aggregation / paper-selection loop (`src/app.py`), with theorems
settling the specification's claims about them.

Python string builtins are modelled explicitly over `List Char` (structural
recursion, so all definitions evaluate inside the kernel).  Machine floats of
the source are modelled as rationals; Python `float(...)` parsing is a
parameter where a claim holds for every parser, and a concrete decimal-literal
model where a concrete value is needed.
-/

namespace NCV

/-! ## Python string primitives (models of the builtins used by the source) -/

/-- `isPrefixL p s`: `p` is a prefix of `s` (char-list form of `str.startswith`). -/
def isPrefixL : List Char → List Char → Bool
  | [], _ => true
  | _ :: _, [] => false
  | p :: ps, c :: cs => p == c && isPrefixL ps cs

/-- Python `s.startswith(p)`. -/
def pyStartsWith (s p : String) : Bool := isPrefixL p.data s.data

/-- Python `s.strip()`: drop leading and trailing whitespace. -/
def pyStrip (s : String) : String :=
  String.mk (((s.data.dropWhile Char.isWhitespace).reverse.dropWhile Char.isWhitespace).reverse)

/-- Python `s.lower()` (ASCII case folding, which covers the source's inputs). -/
def pyLower (s : String) : String := String.mk (s.data.map Char.toLower)

/-- Fuel-indexed replace-all worker: replaces non-overlapping occurrences of
`pat` by `rep`, scanning left to right, as Python `str.replace` does. -/
def replaceFuel (pat rep : List Char) : Nat → List Char → List Char
  | 0, s => s
  | _ + 1, [] => []
  | fuel + 1, c :: rest =>
    if isPrefixL pat (c :: rest) then rep ++ replaceFuel pat rep fuel ((c :: rest).drop pat.length)
    else c :: replaceFuel pat rep fuel rest

/-- Python `s.replace(pat, rep)` (for the non-empty patterns the source uses). -/
def pyReplace (s pat rep : String) : String :=
  String.mk (replaceFuel pat.data rep.data s.data.length s.data)

/-- Fuel-indexed split worker for Python `s.split(sep)` (non-empty `sep`),
keeping empty fields, scanning left to right. -/
def splitFuel (pat : List Char) : Nat → List Char → List Char → List (List Char)
  | 0, cur, s => [cur.reverse ++ s]
  | _ + 1, cur, [] => [cur.reverse]
  | fuel + 1, cur, c :: rest =>
    if isPrefixL pat (c :: rest) then
      cur.reverse :: splitFuel pat fuel [] ((c :: rest).drop pat.length)
    else splitFuel pat fuel (c :: cur) rest

/-- Python `s.split(sep)` with a non-empty separator string. -/
def pySplitSep (s sep : String) : List String :=
  (splitFuel sep.data (s.data.length + 1) [] s.data).map String.mk

/-- Maximal runs of characters satisfying `keep` (used for whitespace
tokenization and for the `\w+` regex). -/
def runsGo (keep : Char → Bool) : List Char → List Char → List (List Char)
  | cur, [] => if cur.isEmpty then [] else [cur.reverse]
  | cur, c :: rest =>
    if keep c then runsGo keep (c :: cur) rest
    else if cur.isEmpty then runsGo keep [] rest
    else cur.reverse :: runsGo keep [] rest

/-- Python `s.split()` (no argument): whitespace runs are separators, empty
fields are dropped. -/
def pySplitWs (s : String) : List String :=
  (runsGo (fun c => !c.isWhitespace) [] s.data).map String.mk

/-- A regex `\w` word character. -/
def isWordChar (c : Char) : Bool := c.isAlphanum || c == '_'

/-- `re.findall(r"\b\w+\b", s.lower())` as used by the normalizer's
standalone-term context check: maximal word-character runs of the lowered text. -/
def pyFindWords (s : String) : List String :=
  (runsGo isWordChar [] (pyLower s).data).map String.mk

/-- Python `sep.join(parts)`. -/
def pyJoin (sep : String) : List String → String
  | [] => ""
  | [x] => x
  | x :: y :: rest => x ++ sep ++ pyJoin sep (y :: rest)

/-- Fuel-indexed substring test worker. -/
def containsFuel (pat : List Char) : Nat → List Char → Bool
  | 0, _ => false
  | _ + 1, [] => isPrefixL pat []
  | fuel + 1, c :: rest => isPrefixL pat (c :: rest) || containsFuel pat fuel rest

/-- Python `pat in s` substring containment. -/
def pyContains (s pat : String) : Bool := containsFuel pat.data (s.data.length + 1) s.data

/-! ## Truth-score aggregation and the paper-selection loop

From `src/app.py` lines 183–211 (selection loop and validity counts) and
lines 296–319 (`final_truth_score`), with the same fold in
`src/claim_extractor.py` `main` lines 277–290. -/

/-- The three analysis fields consumed by selection and scoring
(`analysis["relevance"]`, `analysis["validity"]`, `analysis["overall_confidence"]`). -/
structure PAnalysis where
  relevance : String
  validity : String
  overall_confidence : ℚ
deriving DecidableEq, Repr

/-- `{"DIRECT": 1.0, "INDIRECT": 0.5, "CONTEXTUAL": 0.2}.get(relevance, 0)`. -/
def relWeight (r : String) : ℚ :=
  if r = "DIRECT" then 1 else if r = "INDIRECT" then 1/2 else if r = "CONTEXTUAL" then 1/5 else 0

/-- One paper's signed contribution (`app.py` lines 301–308): `+w*conf` for
SUPPORTS, `-w*conf` for CONTRADICTS, `0` otherwise. -/
def contribution (a : PAnalysis) : ℚ :=
  if a.validity = "SUPPORTS" then relWeight a.relevance * a.overall_confidence
  else if a.validity = "CONTRADICTS" then -(relWeight a.relevance * a.overall_confidence)
  else 0

/-- The scoring fold of `app.py` lines 297–318: the running pair
`(truth_score, weight_sum)`. -/
def scoreFold (l : List PAnalysis) : ℚ × ℚ :=
  l.foldl
    (fun p a => (p.1 + contribution a, p.2 + relWeight a.relevance * a.overall_confidence))
    (0, 0)

/-- `final_truth_score = truth_score / weight_sum if weight_sum else 0`
(`app.py` line 319; identically `claim_extractor.py` line 290). -/
def final_truth_score (l : List PAnalysis) : ℚ :=
  if (scoreFold l).2 ≠ 0 then (scoreFold l).1 / (scoreFold l).2 else 0

/-- Sum of signed contributions (the score's numerator). -/
def sumContrib (l : List PAnalysis) : ℚ := (l.map contribution).sum

/-- Sum of `weight * overall_confidence` (the score's denominator). -/
def sumWeight (l : List PAnalysis) : ℚ :=
  (l.map (fun a => relWeight a.relevance * a.overall_confidence)).sum

/-- State of the selection loop of `app.py` lines 183–211: the validity
counters, the count of papers accepted as relevant, and `analyzed_papers`. -/
structure SelState where
  supporting : Nat
  contradicting : Nat
  neutral : Nat
  relevant_count : Nat
  analyzed : List PAnalysis
deriving DecidableEq, Repr

def selInit : SelState := ⟨0, 0, 0, 0, []⟩

/-- The loop of `app.py` lines 189–211: break once `relevant_count`
reaches `max_papers`; skip an analysis whose relevance is exactly
`"NOT RELEVANT"`; otherwise count it by validity (SUPPORTS / CONTRADICTS /
anything else as neutral) and append it to `analyzed_papers`. -/
def selectGo (maxPapers : Nat) : SelState → List PAnalysis → SelState
  | st, [] => st
  | st, a :: rest =>
    if st.relevant_count ≥ maxPapers then st
    else if a.relevance = "NOT RELEVANT" then selectGo maxPapers st rest
    else
      let st1 : SelState :=
        if a.validity = "SUPPORTS" then { st with supporting := st.supporting + 1 }
        else if a.validity = "CONTRADICTS" then { st with contradicting := st.contradicting + 1 }
        else { st with neutral := st.neutral + 1 }
      selectGo maxPapers
        { st1 with relevant_count := st.relevant_count + 1, analyzed := st.analyzed ++ [a] } rest

/-- The selection loop run from the initial state. -/
def selectAnalyzed (maxPapers : Nat) (papers : List PAnalysis) : SelState :=
  selectGo maxPapers selInit papers

lemma scoreFold_eq (l : List PAnalysis) : scoreFold l = (sumContrib l, sumWeight l) := by
  suffices h : ∀ (l : List PAnalysis) (x y : ℚ),
      l.foldl
        (fun p a => (p.1 + contribution a, p.2 + relWeight a.relevance * a.overall_confidence))
        (x, y) = (x + sumContrib l, y + sumWeight l) by
    simpa [scoreFold] using h l 0 0
  intro l
  induction l with
  | nil => intro x y; simp [sumContrib, sumWeight]
  | cons a rest ih =>
    intro x y
    simp only [List.foldl_cons, ih, sumContrib, sumWeight, List.map_cons, List.sum_cons,
      Prod.mk.injEq]
    constructor <;> ring

lemma relWeight_nonneg (r : String) : 0 ≤ relWeight r := by
  unfold relWeight; split_ifs <;> norm_num

lemma sumWeight_nonneg (l : List PAnalysis) (h : ∀ a ∈ l, 0 ≤ a.overall_confidence) :
    0 ≤ sumWeight l := by
  induction l with
  | nil => simp [sumWeight]
  | cons a rest ih =>
    have ha := h a (by simp)
    have hr : ∀ b ∈ rest, 0 ≤ b.overall_confidence := fun b hb => h b (by simp [hb])
    have : 0 ≤ relWeight a.relevance * a.overall_confidence :=
      mul_nonneg (relWeight_nonneg _) ha
    simp only [sumWeight, List.map_cons, List.sum_cons]
    have := ih hr
    simp only [sumWeight] at this
    linarith

lemma sumContrib_bounds (l : List PAnalysis) (h : ∀ a ∈ l, 0 ≤ a.overall_confidence) :
    -(sumWeight l) ≤ sumContrib l ∧ sumContrib l ≤ sumWeight l := by
  induction l with
  | nil => simp [sumContrib, sumWeight]
  | cons a rest ih =>
    have ha := h a (by simp)
    have hr : ∀ b ∈ rest, 0 ≤ b.overall_confidence := fun b hb => h b (by simp [hb])
    obtain ⟨ih1, ih2⟩ := ih hr
    have hwc : 0 ≤ relWeight a.relevance * a.overall_confidence :=
      mul_nonneg (relWeight_nonneg _) ha
    have hc : -(relWeight a.relevance * a.overall_confidence) ≤ contribution a ∧
        contribution a ≤ relWeight a.relevance * a.overall_confidence := by
      unfold contribution; split_ifs <;> constructor <;> linarith
    simp only [sumContrib, sumWeight, List.map_cons, List.sum_cons] at *
    constructor <;> linarith [hc.1, hc.2]

/-- C1: the aggregate truth score is the sum of signed contributions divided
by the sum of `weight * confidence`, is `0` when that denominator is `0`,
and lies in `[-1, 1]` whenever every `overall_confidence` lies in `[0, 1]`;
for the empty list the score is `0` and all three validity counts are `0`. -/
theorem truth_score_aggregate (l : List PAnalysis) (m : Nat)
    (h : ∀ a ∈ l, 0 ≤ a.overall_confidence ∧ a.overall_confidence ≤ 1) :
    final_truth_score l = (if sumWeight l = 0 then 0 else sumContrib l / sumWeight l) ∧
    -1 ≤ final_truth_score l ∧ final_truth_score l ≤ 1 ∧
    final_truth_score [] = 0 ∧
    (selectAnalyzed m []).supporting = 0 ∧ (selectAnalyzed m []).contradicting = 0 ∧
    (selectAnalyzed m []).neutral = 0 := by
  have h0 : ∀ a ∈ l, 0 ≤ a.overall_confidence := fun a ha => (h a ha).1
  have hform : final_truth_score l =
      (if sumWeight l = 0 then 0 else sumContrib l / sumWeight l) := by
    unfold final_truth_score
    rw [scoreFold_eq]
    by_cases hw : sumWeight l = 0 <;> simp [hw]
  refine ⟨hform, ?_, ?_, by simp [final_truth_score, scoreFold], by rfl, by rfl, by rfl⟩
  · rw [hform]
    by_cases hw : sumWeight l = 0
    · simp [hw]
    · have hpos : 0 < sumWeight l := lt_of_le_of_ne (sumWeight_nonneg l h0) (Ne.symm hw)
      simp only [hw, if_false]
      rw [le_div_iff₀ hpos]
      have := (sumContrib_bounds l h0).1
      linarith
  · rw [hform]
    by_cases hw : sumWeight l = 0
    · simp [hw]
    · have hpos : 0 < sumWeight l := lt_of_le_of_ne (sumWeight_nonneg l h0) (Ne.symm hw)
      simp only [hw, if_false]
      rw [div_le_one hpos]
      exact (sumContrib_bounds l h0).2

/-- Witness for C1 at a concrete two-paper input (the spec's scenario 5). -/
theorem truth_score_aggregate_witness :
    (∀ a ∈ [PAnalysis.mk "DIRECT" "SUPPORTS" (mkRat 4 5),
        PAnalysis.mk "INDIRECT" "CONTRADICTS" (mkRat 3 5)],
      0 ≤ a.overall_confidence ∧ a.overall_confidence ≤ 1) ∧
    (final_truth_score
        [PAnalysis.mk "DIRECT" "SUPPORTS" (mkRat 4 5),
          PAnalysis.mk "INDIRECT" "CONTRADICTS" (mkRat 3 5)] =
      (if sumWeight [PAnalysis.mk "DIRECT" "SUPPORTS" (mkRat 4 5),
          PAnalysis.mk "INDIRECT" "CONTRADICTS" (mkRat 3 5)] = 0 then 0
        else sumContrib [PAnalysis.mk "DIRECT" "SUPPORTS" (mkRat 4 5),
            PAnalysis.mk "INDIRECT" "CONTRADICTS" (mkRat 3 5)] /
          sumWeight [PAnalysis.mk "DIRECT" "SUPPORTS" (mkRat 4 5),
            PAnalysis.mk "INDIRECT" "CONTRADICTS" (mkRat 3 5)]) ∧
      -1 ≤ final_truth_score
        [PAnalysis.mk "DIRECT" "SUPPORTS" (mkRat 4 5),
          PAnalysis.mk "INDIRECT" "CONTRADICTS" (mkRat 3 5)] ∧
      final_truth_score
        [PAnalysis.mk "DIRECT" "SUPPORTS" (mkRat 4 5),
          PAnalysis.mk "INDIRECT" "CONTRADICTS" (mkRat 3 5)] ≤ 1 ∧
      final_truth_score [] = 0 ∧
      (selectAnalyzed 5 []).supporting = 0 ∧ (selectAnalyzed 5 []).contradicting = 0 ∧
      (selectAnalyzed 5 []).neutral = 0) :=
  ⟨by decide, truth_score_aggregate _ 5 (by decide)⟩

/-! ## The phrase normalizer (`src/normalizer.py`)

The Concept Lookup Table `_CHV_LOOKUP` is loaded from
`data/processed/chv_lookup.json`; the table is a parameter of every
definition.  The rapidfuzz similarity scorer (`WRatio`) is an external
library and likewise a parameter. -/

/-- One value of the lookup table: `{"standard_term": ..., "CUI": ...}`. -/
structure Entry where
  standard_term : String
  CUI : String
deriving DecidableEq, Repr

/-- The lookup table: association list in dict insertion order (the order
`preprocess_chv.py` writes entries).  Keys are unique (dict). -/
abbrev Lookup := List (String × Entry)

/-- Python `dict.get(k)` on the table (keys unique, so first match). -/
def lookupTbl : Lookup → String → Option Entry
  | [], _ => none
  | p :: rest, k => if p.1 = k then some p.2 else lookupTbl rest k

/-- `_STANDALONE_TERMS` (normalizer.py lines 17–20). -/
def _STANDALONE_TERMS : List (String × String) := [("drinking", "alcohol consumption")]

/-- `FUZZ_THRESHOLD = 95` (normalizer.py line 22). -/
def FUZZ_THRESHOLD : ℚ := 95

/-- Modelled from the spec: the processed CHV lookup table
(`data/processed/chv_lookup.json`) is repository data not present under
`src/`; this concrete instance is built from the spec's own example entries
(§8 scenarios; concept identifiers illustrative).  Keys are trimmed and
lowercased, as `preprocess_chv.py` guarantees for every real key. -/
def specTable : Lookup :=
  [("period pain", ⟨"dysmenorrhea", "C0013390"⟩),
   ("menstrual cramps", ⟨"dysmenorrhea", "C0013390"⟩),
   ("chia seeds", ⟨"salvia hispanica", "C3531703"⟩),
   ("heart health", ⟨"cardiovascular system", "C0007226"⟩)]

/-- The accumulator loop of rapidfuzz `process.extractOne(term, keys,
score_cutoff)`: a candidate below the cutoff is ignored; once a best exists it
is replaced only by a strictly greater score, so among equal scores the first
key in iteration order is kept (documented rapidfuzz behavior). -/
def extractGo (score : String → String → ℚ) (term : String) (cutoff : ℚ) :
    Option (String × ℚ) → List String → Option (String × ℚ)
  | best, [] => best
  | none, k :: ks =>
    extractGo score term cutoff
      (if cutoff ≤ score term k then some (k, score term k) else none) ks
  | some (bk, bs), k :: ks =>
    extractGo score term cutoff
      (if bs < score term k then some (k, score term k) else some (bk, bs)) ks

/-- `process.extractOne(term, keys, score_cutoff=cutoff)`. -/
def extractOne (score : String → String → ℚ) (term : String) (keys : List String)
    (cutoff : ℚ) : Option (String × ℚ) :=
  extractGo score term cutoff none keys

/-- `fuzzy_normalize` (normalizer.py lines 72–85): extractOne over the table
keys at the fixed threshold; on a (truthy) match key, index the table. -/
def fuzzy_normalize (tbl : Lookup) (score : String → String → ℚ) (term : String) :
    Option Entry :=
  match extractOne score term (tbl.map Prod.fst) FUZZ_THRESHOLD with
  | some (m, _) => if m ≠ "" then lookupTbl tbl m else none
  | none => none

/-- Which branch of `normalize_term` produced the result (the spec's
`matchMethod`); instrumentation over the source's plain dict-or-None return. -/
inductive MatchMethod
  | exact
  | fuzzy
  | contextual
  | unmatched
deriving DecidableEq, Repr

/-- `normalize_term` (normalizer.py lines 87–135), instrumented with the
branch taken.  Order of the source: strip+lower; the standalone-ambiguous
check (suppressing normalization when the term occurs inside a longer
context); static lookup; fuzzy fallback; otherwise `None`.  The log-file
writes do not affect the returned value and are omitted. -/
def normalizeTermM (tbl : Lookup) (score : String → String → ℚ)
    (term : String) (context : Option String) : Option Entry × MatchMethod :=
  let t := pyLower (pyStrip term)
  match _STANDALONE_TERMS.find? (fun p => p.1 == t) with
  | some p =>
    let suppressed : Bool :=
      match context with
      | some ctx =>
        let ws := pyFindWords ctx
        ws.contains t && decide (1 < ws.length)
      | none => false
    if suppressed then (none, MatchMethod.unmatched)
    else (some ⟨p.2, ((lookupTbl tbl t).map Entry.CUI).getD ""⟩, MatchMethod.contextual)
  | none =>
    match lookupTbl tbl t with
    | some e => (some e, MatchMethod.exact)
    | none =>
      match fuzzy_normalize tbl score t with
      | some e => (some e, MatchMethod.fuzzy)
      | none => (none, MatchMethod.unmatched)

/-- `normalize_term`'s actual return value (`Optional[Dict]`). -/
def normalize_term (tbl : Lookup) (score : String → String → ℚ)
    (term : String) (context : Option String) : Option Entry :=
  (normalizeTermM tbl score term context).1

/-- A degenerate scorer: every pair scores 0 (concrete stand-in for WRatio on
inputs far from every key, as rapidfuzz scores nonsense terms well below 95). -/
def zeroScore : String → String → ℚ := fun _ _ => 0

lemma extractGo_none_of_below (score : String → String → ℚ) (term : String) (cutoff : ℚ) :
    ∀ ks, (∀ k ∈ ks, score term k < cutoff) →
      extractGo score term cutoff none ks = none := by
  intro ks
  induction ks with
  | nil => intro _; rfl
  | cons k rest ih =>
    intro h
    have hk : ¬ cutoff ≤ score term k := not_le.mpr (h k (by simp))
    simp only [extractGo, if_neg hk]
    exact ih (fun x hx => h x (by simp [hx]))

lemma extractGo_append (score : String → String → ℚ) (term : String) (cutoff : ℚ) :
    ∀ (l1 l2 : List String) (best : Option (String × ℚ)),
      extractGo score term cutoff best (l1 ++ l2) =
        extractGo score term cutoff (extractGo score term cutoff best l1) l2 := by
  intro l1
  induction l1 with
  | nil =>
    intro l2 best
    rcases best with _ | ⟨bk, bs⟩ <;> rfl
  | cons k rest ih =>
    intro l2 best
    rcases best with _ | ⟨bk, bs⟩
    · simp only [List.cons_append, extractGo]
      exact ih l2 _
    · simp only [List.cons_append, extractGo]
      exact ih l2 _

lemma extractGo_keep_of_max (score : String → String → ℚ) (term : String) (cutoff : ℚ)
    (k : String) (s : ℚ) :
    ∀ ks, (∀ x ∈ ks, score term x ≤ s) →
      extractGo score term cutoff (some (k, s)) ks = some (k, s) := by
  intro ks
  induction ks with
  | nil => intro _; rfl
  | cons x rest ih =>
    intro h
    have hx : ¬ s < score term x := not_lt.mpr (h x (by simp))
    simp only [extractGo, if_neg hx]
    exact ih (fun y hy => h y (by simp [hy]))

lemma extractGo_below (score : String → String → ℚ) (term : String) (cutoff : ℚ) (S : ℚ) :
    ∀ (pre : List String) (best : Option (String × ℚ)),
      (∀ x ∈ pre, score term x < S) →
      (best = none ∨ ∃ bk bs, best = some (bk, bs) ∧ bs < S) →
      (extractGo score term cutoff best pre = none ∨
        ∃ bk bs, extractGo score term cutoff best pre = some (bk, bs) ∧ bs < S) := by
  intro pre
  induction pre with
  | nil => intro best _ hb; simpa [extractGo] using hb
  | cons x rest ih =>
    intro best hlt hb
    have hxS : score term x < S := hlt x (by simp)
    have hrest : ∀ y ∈ rest, score term y < S := fun y hy => hlt y (by simp [hy])
    rcases hb with hb | ⟨bk, bs, hb, hbs⟩
    · subst hb
      simp only [extractGo]
      by_cases hc : cutoff ≤ score term x
      · exact ih _ hrest (Or.inr ⟨x, score term x, by simp [hc], hxS⟩)
      · exact ih _ hrest (Or.inl (by simp [hc]))
    · subst hb
      simp only [extractGo]
      by_cases hc : bs < score term x
      · exact ih _ hrest (Or.inr ⟨x, score term x, by simp [hc], hxS⟩)
      · exact ih _ hrest (Or.inr ⟨bk, bs, by simp [hc], hbs⟩)

lemma fuzzy_none_of_below (tbl : Lookup) (score : String → String → ℚ) (term : String)
    (h : ∀ k ∈ tbl.map Prod.fst, score term k < FUZZ_THRESHOLD) :
    fuzzy_normalize tbl score term = none := by
  unfold fuzzy_normalize extractOne
  rw [extractGo_none_of_below score term FUZZ_THRESHOLD _ h]

/-- C5 amended: the fuzzy fallback returns a match only when some lookup key
scores at least the fixed threshold 95 (terms whose every key scores below 95
come back unmatched), and the selected best is the FIRST key of the table's
iteration order attaining the maximal score — deterministic given the fixed
table order, but by insertion order, not by lexicographic order. -/
theorem fuzzy_threshold_and_tiebreak (tbl : Lookup) (score : String → String → ℚ)
    (term : String) :
    ((∀ k ∈ tbl.map Prod.fst, score term k < FUZZ_THRESHOLD) →
      fuzzy_normalize tbl score term = none) ∧
    (∀ e, fuzzy_normalize tbl score term = some e →
      ∃ k ∈ tbl.map Prod.fst, FUZZ_THRESHOLD ≤ score term k) ∧
    (∀ pre k post, tbl.map Prod.fst = pre ++ k :: post →
      FUZZ_THRESHOLD ≤ score term k →
      (∀ x ∈ pre, score term x < score term k) →
      (∀ x ∈ post, score term x ≤ score term k) →
      extractOne score term (tbl.map Prod.fst) FUZZ_THRESHOLD =
        some (k, score term k)) := by
  have hnone := fuzzy_none_of_below tbl score term
  refine ⟨hnone, ?_, ?_⟩
  · intro e he
    by_contra hc
    push_neg at hc
    have : ∀ k ∈ tbl.map Prod.fst, score term k < FUZZ_THRESHOLD := fun k hk => hc k hk
    rw [hnone this] at he
    exact Option.noConfusion he
  · intro pre k post htbl hk hpre hpost
    unfold extractOne
    rw [htbl, extractGo_append]
    rcases extractGo_below score term FUZZ_THRESHOLD (score term k) pre none hpre
        (Or.inl rfl) with hb | ⟨bk, bs, hb, hbs⟩
    · rw [hb]
      simp only [extractGo, if_pos hk]
      exact extractGo_keep_of_max score term FUZZ_THRESHOLD k (score term k) post hpost
    · rw [hb]
      simp only [extractGo, if_pos hbs]
      exact extractGo_keep_of_max score term FUZZ_THRESHOLD k (score term k) post hpost

/-- A two-key table whose keys tie under `exScore`: first in insertion order
is the lexicographically LARGER key `"zz b"`. -/
def exTable : Lookup := [("zz b", ⟨"B", "CB"⟩), ("zz a", ⟨"A", "CA"⟩)]

/-- Concrete stand-in scorer exhibiting a tie at 96 (rapidfuzz produces equal
scores for distinct keys, e.g. two keys at the same edit distance). -/
def exScore : String → String → ℚ :=
  fun t k => if t = "zz" ∧ (k = "zz b" ∨ k = "zz a") then 96 else 0

/-- C5 counterexample: both keys score 96 ≥ 95; the fuzzy fallback returns the
entry of `"zz b"` — the first key in table order — although `"zz a"` is the
lexicographically smallest tied key and carries a different entry.  So the
claimed lexicographic tie-break does not describe the code. -/
theorem fuzzy_tiebreak_counterexample :
    exScore "zz" "zz a" = exScore "zz" "zz b" ∧
    FUZZ_THRESHOLD ≤ exScore "zz" "zz a" ∧
    "zz a".data < "zz b".data ∧
    fuzzy_normalize exTable exScore "zz" = some ⟨"B", "CB"⟩ ∧
    lookupTbl exTable "zz a" = some ⟨"A", "CA"⟩ ∧
    Entry.mk "B" "CB" ≠ Entry.mk "A" "CA" := by
  exact ⟨by decide, by decide, by decide, by decide, by decide, by decide⟩

/-- Witness for the amended C5 theorem at the concrete tie input. -/
theorem fuzzy_threshold_and_tiebreak_witness :
    (exTable.map Prod.fst = [] ++ "zz b" :: ["zz a"] ∧
      FUZZ_THRESHOLD ≤ exScore "zz" "zz b" ∧
      (∀ x ∈ ([] : List String), exScore "zz" x < exScore "zz" "zz b") ∧
      (∀ x ∈ ["zz a"], exScore "zz" x ≤ exScore "zz" "zz b")) ∧
    extractOne exScore "zz" (exTable.map Prod.fst) FUZZ_THRESHOLD =
      some ("zz b", exScore "zz" "zz b") :=
  ⟨⟨by decide, by decide, by decide, by decide⟩,
    (fuzzy_threshold_and_tiebreak exTable exScore "zz").2.2 [] "zz b" ["zz a"]
      (by decide) (by decide) (by decide) (by decide)⟩

/-- C2 amended: when the standalone check does not apply, exact lookup fails
and every key scores below the fuzzy threshold, `normalize_term` returns
`None` (tagged unmatched) — it does not raise, but it also does not return the
term itself as its own normalized form; that raw-term fallback lives in the
query builder's `expand`, not in the normalizer. -/
theorem normalize_unmatched_returns_none (tbl : Lookup) (score : String → String → ℚ)
    (term : String) (context : Option String)
    (hstand : _STANDALONE_TERMS.find? (fun p => p.1 == pyLower (pyStrip term)) = none)
    (hexact : lookupTbl tbl (pyLower (pyStrip term)) = none)
    (hfuzzy : ∀ k ∈ tbl.map Prod.fst, score (pyLower (pyStrip term)) k < FUZZ_THRESHOLD) :
    normalizeTermM tbl score term context = (none, MatchMethod.unmatched) := by
  have hf : fuzzy_normalize tbl score (pyLower (pyStrip term)) = none :=
    fuzzy_none_of_below tbl score (pyLower (pyStrip term)) hfuzzy
  unfold normalizeTermM
  simp only [hstand, hexact, hf]

/-- Witness for the amended C2 theorem at `"zzqq nonsense"`. -/
theorem normalize_unmatched_returns_none_witness :
    (_STANDALONE_TERMS.find? (fun p => p.1 == pyLower (pyStrip "zzqq nonsense")) = none ∧
      lookupTbl specTable (pyLower (pyStrip "zzqq nonsense")) = none ∧
      (∀ k ∈ specTable.map Prod.fst,
        zeroScore (pyLower (pyStrip "zzqq nonsense")) k < FUZZ_THRESHOLD)) ∧
    normalizeTermM specTable zeroScore "zzqq nonsense" none =
      (none, MatchMethod.unmatched) :=
  ⟨⟨by decide, by decide, by decide⟩,
    normalize_unmatched_returns_none specTable zeroScore "zzqq nonsense" none
      (by decide) (by decide) (by decide)⟩

/-- C2 counterexample: for the unmatched term `"zzqq nonsense"` (the spec's
own scenario 3), `normalize_term` returns `None` — NOT the term itself as its
own normalized form, as the claim states (its result component is `none`, not
`some` of any record carrying the term). -/
theorem normalize_unmatched_counterexample :
    normalizeTermM specTable zeroScore "zzqq nonsense" none =
      (none, MatchMethod.unmatched) ∧
    normalize_term specTable zeroScore "zzqq nonsense" none = none := by
  exact ⟨by decide, by decide⟩

/-- C4: every key of the (spec-modelled) Concept Lookup Table normalizes to
exactly that key's table entry, through the exact static-lookup branch. -/
theorem exact_match_on_table_keys (score : String → String → ℚ) (phrase : String) (e : Entry)
    (hkey : lookupTbl specTable phrase = some e) :
    normalizeTermM specTable score phrase none = (some e, MatchMethod.exact) := by
  by_cases h1 : "period pain" = phrase
  · cases h1
    rw [show lookupTbl specTable "period pain" =
        some ⟨"dysmenorrhea", "C0013390"⟩ from by decide] at hkey
    cases hkey
    rfl
  · by_cases h2 : "menstrual cramps" = phrase
    · cases h2
      rw [show lookupTbl specTable "menstrual cramps" =
          some ⟨"dysmenorrhea", "C0013390"⟩ from by decide] at hkey
      cases hkey
      rfl
    · by_cases h3 : "chia seeds" = phrase
      · cases h3
        rw [show lookupTbl specTable "chia seeds" =
            some ⟨"salvia hispanica", "C3531703"⟩ from by decide] at hkey
        cases hkey
        rfl
      · by_cases h4 : "heart health" = phrase
        · cases h4
          rw [show lookupTbl specTable "heart health" =
              some ⟨"cardiovascular system", "C0007226"⟩ from by decide] at hkey
          cases hkey
          rfl
        · exfalso
          simp only [lookupTbl, specTable, if_neg h1, if_neg h2, if_neg h3, if_neg h4] at hkey
          exact Option.noConfusion hkey

/-- Witness for C4 at the spec's scenario-1 key `"period pain"`. -/
theorem exact_match_on_table_keys_witness :
    lookupTbl specTable "period pain" = some ⟨"dysmenorrhea", "C0013390"⟩ ∧
    normalizeTermM specTable zeroScore "period pain" none =
      (some ⟨"dysmenorrhea", "C0013390"⟩, MatchMethod.exact) :=
  ⟨by decide, exact_match_on_table_keys zeroScore "period pain" _ (by decide)⟩

/-! ## Exclusion before counting and scoring (claim C6) -/

lemma selectGo_of_ge (m : Nat) (st : SelState) (l : List PAnalysis)
    (h : st.relevant_count ≥ m) : selectGo m st l = st := by
  cases l with
  | nil => rfl
  | cons a rest => simp [selectGo, h]

lemma selectGo_skip (m : Nat) (a : PAnalysis) (ha : a.relevance = "NOT RELEVANT") :
    ∀ (pre post : List PAnalysis) (st : SelState),
      selectGo m st (pre ++ a :: post) = selectGo m st (pre ++ post) := by
  intro pre
  induction pre with
  | nil =>
    intro post st
    simp only [List.nil_append]
    by_cases h : st.relevant_count ≥ m
    · rw [selectGo_of_ge m st _ h, selectGo_of_ge m st _ h]
    · simp [selectGo, h, ha]
  | cons b pre ih =>
    intro post st
    simp only [List.cons_append, selectGo]
    by_cases h : st.relevant_count ≥ m
    · simp [h]
    · simp only [if_neg h]
      by_cases hb : b.relevance = "NOT RELEVANT"
      · simp only [if_pos hb]
        exact ih post st
      · simp only [if_neg hb]
        exact ih post _

lemma relWeight_zero_of_unrecognized (r : String)
    (h : r ≠ "DIRECT" ∧ r ≠ "INDIRECT" ∧ r ≠ "CONTEXTUAL") : relWeight r = 0 := by
  unfold relWeight
  rw [if_neg h.1, if_neg h.2.1, if_neg h.2.2]

lemma score_sums_ignore_zero_weight (pre post : List PAnalysis) (b : PAnalysis)
    (hb : b.relevance ≠ "DIRECT" ∧ b.relevance ≠ "INDIRECT" ∧ b.relevance ≠ "CONTEXTUAL") :
    sumContrib (pre ++ b :: post) = sumContrib (pre ++ post) ∧
    sumWeight (pre ++ b :: post) = sumWeight (pre ++ post) := by
  have hw : relWeight b.relevance = 0 := relWeight_zero_of_unrecognized _ hb
  have hc : contribution b = 0 := by
    unfold contribution
    rw [hw]
    split_ifs <;> ring
  constructor <;>
    simp [sumContrib, sumWeight, hc, hw]

/-- C6 amended: an analysis whose relevance is exactly `"NOT RELEVANT"` is
skipped by the selection loop (neither counted nor kept), and an analysis
whose relevance is any OTHER unrecognized value (UNKNOWN, empty, unparsable)
is retained and counted but carries relevance weight 0, so it changes neither
the truth score's numerator nor its denominator (the final score is
unchanged by its presence). -/
theorem not_relevant_excluded_amended (m : Nat) (st : SelState)
    (pre post : List PAnalysis) (a b : PAnalysis)
    (ha : a.relevance = "NOT RELEVANT")
    (hb : b.relevance ≠ "DIRECT" ∧ b.relevance ≠ "INDIRECT" ∧ b.relevance ≠ "CONTEXTUAL") :
    selectGo m st (pre ++ a :: post) = selectGo m st (pre ++ post) ∧
    final_truth_score (pre ++ b :: post) = final_truth_score (pre ++ post) := by
  refine ⟨selectGo_skip m a ha pre post st, ?_⟩
  obtain ⟨h1, h2⟩ := score_sums_ignore_zero_weight pre post b hb
  simp only [final_truth_score, scoreFold_eq, h1, h2]

/-- Witness for the amended C6 theorem at concrete analyses. -/
theorem not_relevant_excluded_amended_witness :
    ((PAnalysis.mk "NOT RELEVANT" "SUPPORTS" 1).relevance = "NOT RELEVANT" ∧
      (PAnalysis.mk "UNKNOWN" "NEUTRAL" 1).relevance ≠ "DIRECT" ∧
      (PAnalysis.mk "UNKNOWN" "NEUTRAL" 1).relevance ≠ "INDIRECT" ∧
      (PAnalysis.mk "UNKNOWN" "NEUTRAL" 1).relevance ≠ "CONTEXTUAL") ∧
    (selectGo 5 selInit ([] ++ PAnalysis.mk "NOT RELEVANT" "SUPPORTS" 1 :: []) =
        selectGo 5 selInit ([] ++ []) ∧
      final_truth_score ([] ++ PAnalysis.mk "UNKNOWN" "NEUTRAL" 1 :: []) =
        final_truth_score ([] ++ [])) :=
  ⟨⟨by decide, by decide, by decide, by decide⟩,
    not_relevant_excluded_amended 5 selInit [] [] _ _ (by decide)
      ⟨by decide, by decide, by decide⟩⟩

/-- C6 counterexample: a paper whose relevance is `"UNKNOWN"` (an unparsable /
unrecognized value) is NOT excluded before counting: the selection loop counts
it as neutral and keeps it in `analyzed_papers`, contradicting the claim that
such documents contribute to no count. -/
theorem unknown_relevance_counted_counterexample :
    (selectAnalyzed 5 [PAnalysis.mk "UNKNOWN" "NEUTRAL" 1]).neutral = 1 ∧
    (selectAnalyzed 5 [PAnalysis.mk "UNKNOWN" "NEUTRAL" 1]).analyzed =
      [PAnalysis.mk "UNKNOWN" "NEUTRAL" 1] :=
  ⟨by decide, by decide⟩

/-! ## Greedy phrase covering (`normalize_claim_phrases`, normalizer.py
lines 137–174) -/

/-- One recorded phrase normalization, instrumented with the token span
`[start, start + len)` at which the loop claimed it (the source records only
the dict `{original, standard_term, CUI}`; the span is the loop position at
the moment of recording). -/
structure SpanResult where
  original : String
  standard_term : String
  CUI : String
  start : Nat
  len : Nat
deriving DecidableEq, Repr

/-- The loop state: the `used` boolean array (as a function on token indices)
and the `results` list. -/
structure CoverState where
  used : Nat → Bool
  results : List SpanResult

/-- `any(used[i:i+n])` (out-of-range reads are `False`, as slicing clips). -/
def spanUsed (u : Nat → Bool) (i n : Nat) : Bool :=
  (List.range n).any (fun j => u (i + j))

/-- `used[j] = True for j in range(i, i+n)`. -/
def markSpan (u : Nat → Bool) (i n : Nat) : Nat → Bool :=
  fun j => if i ≤ j ∧ j < i + n then true else u j

/-- Record a hit: mark the span used and append the result. -/
def claimSpan (st : CoverState) (e : Entry) (phrase : String) (i n : Nat) : CoverState :=
  ⟨markSpan st.used i n, st.results ++ [⟨phrase, e.standard_term, e.CUI, i, n⟩]⟩

/-- The inner-loop body (lines 148–160): skip a span any of whose words is
used; exact table lookup of the joined phrase; record on a hit. -/
def trySpan (tbl : Lookup) (words : List String) (n i : Nat) (st : CoverState) : CoverState :=
  if spanUsed st.used i n then st
  else
    match lookupTbl tbl (pyJoin " " ((words.drop i).take n)) with
    | some e => claimSpan st e (pyJoin " " ((words.drop i).take n)) i n
    | none => st

/-- `for i in range(len(words) - n + 1)` (empty when `n > len(words)`). -/
def scanLen (tbl : Lookup) (words : List String) (n : Nat) (st : CoverState) : CoverState :=
  (List.range (words.length + 1 - n)).foldl (fun st i => trySpan tbl words n i st) st

/-- `for n in range(max_phrase_len, 0, -1)`: lengths maxLen, ..., 1. -/
def phraseLoop (tbl : Lookup) (words : List String) (maxLen : Nat) (st : CoverState) :
    CoverState :=
  (List.range maxLen).foldl (fun st k => scanLen tbl words (maxLen - k) st) st

/-- The final pass (lines 163–172): remaining unused single words. -/
def singlePass (tbl : Lookup) (words : List String) (st : CoverState) : CoverState :=
  (List.range words.length).foldl
    (fun st i =>
      if st.used i then st
      else
        match lookupTbl tbl (words.getD i "") with
        | some e => claimSpan st e (words.getD i "") i 1
        | none => st) st

/-- `normalize_claim_phrases(claim, max_phrase_len)`: lowercase, whitespace
tokenization, greedy covering by decreasing phrase length, then the
single-word pass; instrumented results. -/
def normalize_claim_phrases (tbl : Lookup) (claim : String) (maxLen : Nat) :
    List SpanResult :=
  let words := pySplitWs (pyLower claim)
  (singlePass tbl words (phraseLoop tbl words maxLen ⟨fun _ => false, []⟩)).results

/-- The source's actual return shape: dicts `(original, standard_term, CUI)`
without the instrumentation. -/
def normalize_claim_phrases_dicts (tbl : Lookup) (claim : String) (maxLen : Nat) :
    List (String × String × String) :=
  (normalize_claim_phrases tbl claim maxLen).map fun r => (r.original, r.standard_term, r.CUI)

/-- Two results' token spans do not overlap. -/
def SpanDisjoint (a b : SpanResult) : Prop :=
  a.start + a.len ≤ b.start ∨ b.start + b.len ≤ a.start

/-- Loop invariant at current phrase length `n`: recorded spans are marked in
`used`; results are pairwise disjoint with non-increasing lengths; every
result's length lies in `[max(n,1), M]` and its phrase is an exact table hit. -/
def InvN (tbl : Lookup) (M n : Nat) (st : CoverState) : Prop :=
  (∀ r ∈ st.results, ∀ j, r.start ≤ j → j < r.start + r.len → st.used j = true) ∧
  st.results.Pairwise (fun a b => SpanDisjoint a b ∧ b.len ≤ a.len) ∧
  (∀ r ∈ st.results, n ≤ r.len ∧ 1 ≤ r.len ∧ r.len ≤ M ∧
    lookupTbl tbl r.original = some ⟨r.standard_term, r.CUI⟩)

lemma markSpan_mono {u : Nat → Bool} {i n j : Nat} (h : u j = true) :
    markSpan u i n j = true := by
  unfold markSpan
  split_ifs <;> simp [h]

lemma markSpan_in {u : Nat → Bool} {i n j : Nat} (h1 : i ≤ j) (h2 : j < i + n) :
    markSpan u i n j = true := by
  unfold markSpan
  rw [if_pos (And.intro h1 h2)]

lemma spanUsed_false {u : Nat → Bool} {i n : Nat} (h : spanUsed u i n = false) :
    ∀ j, i ≤ j → j < i + n → u j = false := by
  intro j hj1 hj2
  unfold spanUsed at h
  rw [List.any_eq_false] at h
  have hmem : j - i ∈ List.range n := List.mem_range.mpr (by omega)
  have h' := h _ hmem
  have hij : i + (j - i) = j := by omega
  rw [hij] at h'
  simpa using h'

lemma claimSpan_inv {tbl : Lookup} {M n : Nat} {st : CoverState} {e : Entry}
    {phrase : String} {i : Nat}
    (hInv : InvN tbl M n st) (hn1 : 1 ≤ n) (hnM : n ≤ M)
    (hfree : spanUsed st.used i n = false)
    (hlk : lookupTbl tbl phrase = some e) :
    InvN tbl M n (claimSpan st e phrase i n) := by
  obtain ⟨hcov, hpw, hlen⟩ := hInv
  refine ⟨?_, ?_, ?_⟩
  · intro r hr j hj1 hj2
    simp only [claimSpan, List.mem_append, List.mem_singleton] at hr
    rcases hr with hr | hr
    · exact markSpan_mono (hcov r hr j hj1 hj2)
    · subst hr
      exact markSpan_in hj1 hj2
  · simp only [claimSpan]
    rw [List.pairwise_append]
    refine ⟨hpw, List.pairwise_singleton _ _, ?_⟩
    intro a ha b hb
    simp only [List.mem_singleton] at hb
    subst hb
    obtain ⟨-, h1a, -, -⟩ := hlen a ha
    constructor
    · by_contra hnd
      unfold SpanDisjoint at hnd
      push_neg at hnd
      obtain ⟨hnd1, hnd2⟩ := hnd
      simp only at hnd1 hnd2
      have hja1 : a.start ≤ max a.start i := le_max_left _ _
      have hja2 : max a.start i < a.start + a.len := by omega
      have hji1 : i ≤ max a.start i := le_max_right _ _
      have hji2 : max a.start i < i + n := by omega
      have htrue := hcov a ha _ hja1 hja2
      have hfalse := spanUsed_false hfree _ hji1 hji2
      rw [htrue] at hfalse
      exact Bool.noConfusion hfalse
    · exact (hlen a ha).1
  · intro r hr
    simp only [claimSpan, List.mem_append, List.mem_singleton] at hr
    rcases hr with hr | hr
    · exact hlen r hr
    · subst hr
      exact ⟨le_refl n, hn1, hnM, hlk⟩

lemma foldl_preserve {α β : Type} (P : α → Prop) (f : α → β → α)
    (hf : ∀ s x, P s → P (f s x)) :
    ∀ (l : List β) (s : α), P s → P (l.foldl f s) := by
  intro l
  induction l with
  | nil => intro s hs; exact hs
  | cons x xs ih => intro s hs; exact ih (f s x) (hf s x hs)

lemma trySpan_inv {tbl : Lookup} {words : List String} {M n : Nat}
    (hn1 : 1 ≤ n) (hnM : n ≤ M) (i : Nat) (st : CoverState) (h : InvN tbl M n st) :
    InvN tbl M n (trySpan tbl words n i st) := by
  unfold trySpan
  cases hu : spanUsed st.used i n with
  | true => simpa [hu] using h
  | false =>
    simp only [hu, Bool.false_eq_true, if_false]
    cases hlk : lookupTbl tbl (pyJoin " " ((words.drop i).take n)) with
    | none => exact h
    | some e => exact claimSpan_inv h hn1 hnM hu hlk

lemma InvN_mono {tbl : Lookup} {M n m : Nat} {st : CoverState}
    (h : InvN tbl M n st) (hmn : m ≤ n) : InvN tbl M m st := by
  refine ⟨h.1, h.2.1, fun r hr => ?_⟩
  obtain ⟨ha, hb, hc, hd⟩ := h.2.2 r hr
  exact ⟨le_trans hmn ha, hb, hc, hd⟩

lemma range_foldl_ind {α : Type} (f : α → Nat → α) (Q : Nat → α → Prop) :
    ∀ (M : Nat) (s : α), (∀ k st, k < M → Q k st → Q (k + 1) (f st k)) → Q 0 s →
      Q M ((List.range M).foldl f s) := by
  intro M
  induction M with
  | zero => intro s _ h0; simpa using h0
  | succ M ih =>
    intro s hstep h0
    rw [List.range_succ, List.foldl_append]
    exact hstep M _ (Nat.lt_succ_self M)
      (ih s (fun k st hk => hstep k st (Nat.lt_succ_of_lt hk)) h0)

lemma InvN_empty (tbl : Lookup) (M n : Nat) : InvN tbl M n ⟨fun _ => false, []⟩ :=
  ⟨fun r hr => absurd hr (List.not_mem_nil r), List.Pairwise.nil,
    fun r hr => absurd hr (List.not_mem_nil r)⟩

lemma phraseLoop_inv (tbl : Lookup) (words : List String) (M : Nat) :
    InvN tbl M 0 (phraseLoop tbl words M ⟨fun _ => false, []⟩) := by
  have step : ∀ k st, k < M → InvN tbl M (M - k) st →
      InvN tbl M (M - (k + 1)) (scanLen tbl words (M - k) st) := by
    intro k st hk hQ
    have hn1 : 1 ≤ M - k := by omega
    have hnM : M - k ≤ M := by omega
    have h2 : InvN tbl M (M - k) (scanLen tbl words (M - k) st) := by
      unfold scanLen
      exact foldl_preserve (InvN tbl M (M - k)) _
        (fun s i hs => trySpan_inv hn1 hnM i s hs) _ st hQ
    exact InvN_mono h2 (by omega)
  have h := range_foldl_ind (fun st k => scanLen tbl words (M - k) st)
      (fun k st => InvN tbl M (M - k) st) M ⟨fun _ => false, []⟩ step
      (by simpa using InvN_empty tbl M M)
  unfold phraseLoop
  simpa using h

lemma singlePass_inv {tbl : Lookup} (words : List String) {M : Nat} (hM : 1 ≤ M)
    {st : CoverState} (h : InvN tbl M 1 st) :
    InvN tbl M 1 (singlePass tbl words st) := by
  unfold singlePass
  refine foldl_preserve (InvN tbl M 1) _ ?_ _ st h
  intro s i hs
  cases hu : s.used i with
  | true => simpa [hu] using hs
  | false =>
    simp only [hu, Bool.false_eq_true, if_false]
    cases hlk : lookupTbl tbl (words.getD i "") with
    | none => exact hs
    | some e =>
      refine claimSpan_inv hs le_rfl hM ?_ hlk
      show spanUsed s.used i 1 = false
      unfold spanUsed
      rw [show List.range 1 = [0] from by decide]
      simpa using hu

/-- C3: for every claim string, lookup table and `maxPhraseLength ≥ 1`, the
phrase-covering results have pairwise non-overlapping token spans (each token
index is claimed by at most one result), every span length lies between 1 and
maxPhraseLength, recorded lengths are non-increasing (longer phrases take
priority over shorter overlapping ones), and every result is an exact table
hit on its phrase — no fuzzy or reduction fallback enters this stage. -/
theorem phrase_cover_invariants (tbl : Lookup) (claim : String) (maxLen : Nat)
    (hM : 1 ≤ maxLen) :
    (normalize_claim_phrases tbl claim maxLen).Pairwise
      (fun a b => a.start + a.len ≤ b.start ∨ b.start + b.len ≤ a.start) ∧
    (∀ r ∈ normalize_claim_phrases tbl claim maxLen, 1 ≤ r.len ∧ r.len ≤ maxLen) ∧
    (normalize_claim_phrases tbl claim maxLen).Pairwise (fun a b => b.len ≤ a.len) ∧
    (∀ r ∈ normalize_claim_phrases tbl claim maxLen,
      lookupTbl tbl r.original = some ⟨r.standard_term, r.CUI⟩) := by
  have heq : normalize_claim_phrases tbl claim maxLen =
      (singlePass tbl (pySplitWs (pyLower claim))
        (phraseLoop tbl (pySplitWs (pyLower claim)) maxLen ⟨fun _ => false, []⟩)).results := rfl
  have h0 := phraseLoop_inv tbl (pySplitWs (pyLower claim)) maxLen
  have h1 : InvN tbl maxLen 1
      (phraseLoop tbl (pySplitWs (pyLower claim)) maxLen ⟨fun _ => false, []⟩) := by
    refine ⟨h0.1, h0.2.1, fun r hr => ?_⟩
    obtain ⟨-, h1r, hMr, hlkr⟩ := h0.2.2 r hr
    exact ⟨h1r, h1r, hMr, hlkr⟩
  have h2 := singlePass_inv (pySplitWs (pyLower claim)) hM h1
  obtain ⟨-, hpw, hlen⟩ := h2
  rw [heq]
  refine ⟨?_, ?_, ?_, ?_⟩
  · exact hpw.imp (fun h => h.1)
  · intro r hr
    exact ⟨(hlen r hr).2.1, (hlen r hr).2.2.1⟩
  · exact hpw.imp (fun h => h.2)
  · intro r hr
    exact (hlen r hr).2.2.2

/-- Witness for C3 at a concrete claim over the spec-modelled table. -/
theorem phrase_cover_invariants_witness :
    1 ≤ 3 ∧
    ((normalize_claim_phrases specTable "Chia seeds are great for heart health" 3).Pairwise
        (fun a b => a.start + a.len ≤ b.start ∨ b.start + b.len ≤ a.start) ∧
      (∀ r ∈ normalize_claim_phrases specTable "Chia seeds are great for heart health" 3,
        1 ≤ r.len ∧ r.len ≤ 3) ∧
      (normalize_claim_phrases specTable "Chia seeds are great for heart health" 3).Pairwise
        (fun a b => b.len ≤ a.len) ∧
      (∀ r ∈ normalize_claim_phrases specTable "Chia seeds are great for heart health" 3,
        lookupTbl specTable r.original = some ⟨r.standard_term, r.CUI⟩)) :=
  ⟨by decide,
    phrase_cover_invariants specTable "Chia seeds are great for heart health" 3 (by decide)⟩

/-! ## The query synthesizer (`build_pubmed_query_from_claim`, evidence.py
lines 9–60) -/

/-- The inner `expand` of `build_pubmed_query_from_claim` (lines 21–45):
normalize the term with context and take its standard term; when the
normalized CUI is non-empty and `cui_to_mesh` yields a (truthy) MeSH term,
append it (`cui_to_mesh` lives in `src/umls.py`, repository code not present
under `src/` — modelled from the spec as an injected mapping to an optional
controlled-vocabulary term); if nothing was produced, the reduction fallback:
the period-pain synonym cluster maps to dysmenorrhea, else split on the first
matching connector separator, retry normalization on the trailing phrase and
keep it verbatim on failure, else keep the raw term; finally dedupe
preserving first-seen order (`dict.fromkeys`). -/
def expand (tbl : Lookup) (score : String → String → ℚ) (cuiToMesh : String → Option String)
    (term context : String) : List String :=
  let norm := normalize_term tbl score term (some context)
  let terms0 : List String :=
    match norm with
    | some n => [n.standard_term]
    | none => []
  let terms1 : List String :=
    match norm with
    | some n =>
      if n.CUI ≠ "" then
        match cuiToMesh n.CUI with
        | some mesh => if mesh ≠ "" then terms0 ++ [mesh] else terms0
        | none => terms0
      else terms0
    | none => terms0
  let terms2 : List String :=
    if terms1 = [] then
      if ["period cramping", "period pain", "menstrual pain", "menstrual cramps"].any
          (fun kw => pyContains (pyLower term) kw) then
        terms1 ++ ["dysmenorrhea"]
      else
        match [" from ", " of ", " in ", " due to "].find? (fun sep => pyContains term sep) with
        | some sep =>
          let reduced := pyStrip ((pySplitSep term sep).getLastD "")
          match normalize_term tbl score reduced (some context) with
          | some n2 => terms1 ++ [n2.standard_term]
          | none => terms1 ++ [reduced]
        | none => terms1 ++ [term]
    else terms1
  terms2.foldl (fun acc t => if t ∈ acc then acc else acc ++ [t]) []

/-- `build_pubmed_query_from_claim(subject, outcome, *, field, mesh_field,
human_only, publication_types)` (evidence.py lines 9–60): expand subject and
outcome against the combined context, build the two parenthesized OR-groups,
append the humans filter and the publication-type OR-group when requested,
and AND everything together. -/
def build_pubmed_query_from_claim (tbl : Lookup) (score : String → String → ℚ)
    (cuiToMesh : String → Option String) (subject outcome field mesh_field : String)
    (human_only : Bool) (publication_types : Option (List String)) : String :=
  let ctx := subject ++ " " ++ outcome
  let subj_terms := expand tbl score cuiToMesh subject ctx
  let out_terms := expand tbl score cuiToMesh outcome ctx
  let subj_clause :=
    pyJoin " OR " (subj_terms.map (fun t => "\"" ++ t ++ "\"[" ++ field ++ "]"))
  let outcome_clause :=
    pyJoin " OR " (out_terms.map (fun t => "\"" ++ t ++ "\"[" ++ field ++ "]"))
  let clauses := ["(" ++ subj_clause ++ ")", "(" ++ outcome_clause ++ ")"]
  let clauses := if human_only then clauses ++ ["humans[" ++ mesh_field ++ "]"] else clauses
  let clauses :=
    match publication_types with
    | some pts =>
      if pts ≠ [] then
        clauses ++ ["(" ++ pyJoin " OR " (pts.map (fun pt => pt ++ "[pt]")) ++ ")"]
      else clauses
    | none => clauses
  pyJoin " AND " clauses

/-- C7: the query builder is a pure, deterministic function of its explicit
inputs — identical subject, outcome, field, mesh_field, human_only and
publication_types (over the process-constant lookup table, similarity scorer
and CUI-to-MeSH mapping) yield identical query strings.  No mutable state or
I/O enters the result: the embedding is a function of exactly these inputs
(the source's normalization-log write does not influence the returned
string). -/
theorem build_query_deterministic (tbl : Lookup) (score : String → String → ℚ)
    (cuiToMesh : String → Option String)
    (s1 s2 o1 o2 f1 f2 m1 m2 : String) (h1 h2 : Bool)
    (p1 p2 : Option (List String))
    (hs : s1 = s2) (ho : o1 = o2) (hf : f1 = f2) (hm : m1 = m2)
    (hh : h1 = h2) (hp : p1 = p2) :
    build_pubmed_query_from_claim tbl score cuiToMesh s1 o1 f1 m1 h1 p1 =
      build_pubmed_query_from_claim tbl score cuiToMesh s2 o2 f2 m2 h2 p2 := by
  subst hs
  subst ho
  subst hf
  subst hm
  subst hh
  subst hp
  rfl

/-- Witness for C7 at the spec's scenario-4 inputs. -/
theorem build_query_deterministic_witness :
    (("chia seeds" : String) = "chia seeds" ∧ ("heart health" : String) = "heart health" ∧
      ("TIAB" : String) = "TIAB" ∧ ("MeSH Terms" : String) = "MeSH Terms" ∧
      true = true ∧ (none : Option (List String)) = none) ∧
    build_pubmed_query_from_claim specTable zeroScore (fun _ => none)
        "chia seeds" "heart health" "TIAB" "MeSH Terms" true none =
      build_pubmed_query_from_claim specTable zeroScore (fun _ => none)
        "chia seeds" "heart health" "TIAB" "MeSH Terms" true none :=
  ⟨⟨rfl, rfl, rfl, rfl, rfl, rfl⟩,
    build_query_deterministic specTable zeroScore (fun _ => none)
      "chia seeds" "chia seeds" "heart health" "heart health" "TIAB" "TIAB"
      "MeSH Terms" "MeSH Terms" true true none none rfl rfl rfl rfl rfl rfl⟩

/-! ## The analysis-oracle output parser (`claim_extractor.analyze_paper`,
lines 146–226) and `efetch` (evidence.py lines 91–116) -/

/-- The parsed analysis dict returned by `analyze_paper`. -/
structure Analysis where
  relevance : String
  confidence_scores : List (String × ℚ)
  overall_confidence : ℚ
  confidence_reason : String
  summary : String
  validity : String
  reasoning : String
deriving DecidableEq, Repr

/-- Parser state: the seven fields plus the `in_confidence_scores` flag. -/
structure ParseState where
  relevance : String
  confidence_scores : List (String × ℚ)
  overall_confidence : ℚ
  confidence_reason : String
  summary : String
  validity : String
  reasoning : String
  in_cs : Bool
deriving DecidableEq, Repr

/-- Defaults of claim_extractor.py lines 166–174. -/
def initState : ParseState := ⟨"", [], 0, "", "", "", "", false⟩

/-- Python dict assignment `d[k] = v`: replace in place, else append. -/
def dictSet (d : List (String × ℚ)) (k : String) (v : ℚ) : List (String × ℚ) :=
  if d.any (fun p => p.1 == k) then d.map (fun p => if p.1 == k then (k, v) else p)
  else d ++ [(k, v)]

/-- One iteration of the line loop (claim_extractor.py lines 175–201);
`pyFloat` models Python `float(...)` as an optional parse (an exception is
`none`).  Chain order and the all-occurrence `replace` follow the source. -/
def parseLine (pyFloat : String → Option ℚ) (st : ParseState) (rawLine : String) :
    ParseState :=
  let line := pyStrip rawLine
  if pyStartsWith line "RELEVANCE:" then
    { st with relevance := pyStrip (pyReplace line "RELEVANCE:" "") }
  else if pyStartsWith line "CONFIDENCE_SCORES:" then
    { st with in_cs := true }
  else if pyStartsWith line "OVERALL_CONFIDENCE:" then
    match pyFloat (pyStrip (pyReplace line "OVERALL_CONFIDENCE:" "")) with
    | some v => { st with in_cs := false, overall_confidence := v }
    | none => { st with in_cs := false, overall_confidence := 0 }
  else if st.in_cs && pyStartsWith line "- " then
    match pySplitSep (pyReplace line "- " "") ":" with
    | [component, scoreStr] =>
      match pyFloat (pyStrip scoreStr) with
      | some v =>
        { st with confidence_scores := dictSet st.confidence_scores (pyStrip component) v }
      | none => st
    | _ => st
  else if pyStartsWith line "CONFIDENCE_REASON:" then
    { st with confidence_reason := pyStrip (pyReplace line "CONFIDENCE_REASON:" "") }
  else if pyStartsWith line "SUMMARY:" then
    { st with summary := pyStrip (pyReplace line "SUMMARY:" "") }
  else if pyStartsWith line "VALIDITY:" then
    { st with validity := pyStrip (pyReplace line "VALIDITY:" "") }
  else if pyStartsWith line "REASONING:" then
    { st with reasoning := pyStrip (pyReplace line "REASONING:" "") }
  else st

/-- The whole line loop, over a list of lines. -/
def parseAnalysis (pyFloat : String → Option ℚ) (ls : List String) : ParseState :=
  ls.foldl (parseLine pyFloat) initState

/-- The loop over `analysis.split('\n')`. -/
def parseAnalysisText (pyFloat : String → Option ℚ) (text : String) : ParseState :=
  parseAnalysis pyFloat (pySplitSep text "\n")

/-- The result dict of a successful `analyze_paper` run. -/
def stateToAnalysis (st : ParseState) : Analysis :=
  ⟨st.relevance, st.confidence_scores, st.overall_confidence, st.confidence_reason,
    st.summary, st.validity, st.reasoning⟩

/-- The `except` fallback dict of `analyze_paper` (lines 216–226). -/
def errorAnalysis (e : String) : Analysis :=
  ⟨"NOT RELEVANT", [], 0, "Error analyzing paper", "Error analyzing paper", "UNKNOWN", e⟩

/-- `analyze_paper` (lines 146–226): the oracle call is modelled as an
`Except` value.  The body's try/except catches every failure — network and
service errors included — and returns the fallback dict: the function's
return type is a plain analysis record, never a raised error.  The cache is
memoization semantically equivalent to a fresh call and is omitted. -/
def analyze_paper (pyFloat : String → Option ℚ) (oracle : Except String String) : Analysis :=
  match oracle with
  | Except.ok text => stateToAnalysis (parseAnalysisText pyFloat text)
  | Except.error e => errorAnalysis e

/-- `efetch` (evidence.py lines 91–116): an empty id list short-circuits to
`[]`; otherwise the HTTP response (modelled as `Except`) passes through
`raise_for_status` — an error response propagates to the caller — and the XML
body is parsed into papers (the ElementTree extraction is abstracted as
`parseBody`). -/
def efetch {α : Type} (parseBody : String → List α) (pmids : List String)
    (resp : Except String String) : Except String (List α) :=
  if pmids = [] then Except.ok []
  else
    match resp with
    | Except.error e => Except.error e
    | Except.ok body => Except.ok (parseBody body)

/-- Digit-run parse of a char list to a natural number (none on empty or any
non-digit). -/
def parseDigits : List Char → Option ℕ
  | [] => none
  | cs =>
    cs.foldl
      (fun acc c =>
        match acc with
        | none => none
        | some n => if c.isDigit then some (n * 10 + (c.toNat - 48)) else none)
      (some 0)

/-- Modelled from Python `float(...)`, restricted to the plain decimal
literals the oracle format produces (optional sign, digits, optional
fractional part, surrounding whitespace); real `float` accepts further forms
(exponents, inf), which would only make more strings parse. -/
def pyFloatModel (s : String) : Option ℚ :=
  let t := pyStrip s
  let signedBody : Bool × List Char :=
    match t.data with
    | c :: rest =>
      if c == '-' then (true, rest) else if c == '+' then (false, rest) else (false, t.data)
    | [] => (false, [])
  let mk : ℕ → ℕ → ℕ → Option ℚ := fun a b l =>
    some (if signedBody.1 then -(mkRat (a * 10 ^ l + b) (10 ^ l))
      else mkRat (a * 10 ^ l + b) (10 ^ l))
  match signedBody.2.splitOn '.' with
  | [ip] =>
    match parseDigits ip with
    | some a => mk a 0 0
    | none => none
  | [ip, fp] =>
    if ip.isEmpty && fp.isEmpty then none
    else
      match (if ip.isEmpty then some 0 else parseDigits ip),
          (if fp.isEmpty then some 0 else parseDigits fp) with
      | some a, some b => mk a b fp.length
      | _, _ => none
  | _ => none

/-- C8: the line-oriented parse never aborts: a line that matches none of the
seven labels and whose confidence parse fails (colon split not yielding
exactly two parts, or the value not parsing as a number) is a no-op — the
whole parse equals the parse without that line, so every other field and
every other criterion is retained and the affected field keeps its default.
In particular a confidence-score line with an unparsable value drops only
that single criterion. -/
theorem malformed_line_skipped (pyFloat : String → Option ℚ)
    (pre post : List String) (bad : String)
    (hR : pyStartsWith (pyStrip bad) "RELEVANCE:" = false)
    (hCS : pyStartsWith (pyStrip bad) "CONFIDENCE_SCORES:" = false)
    (hOC : pyStartsWith (pyStrip bad) "OVERALL_CONFIDENCE:" = false)
    (hCR : pyStartsWith (pyStrip bad) "CONFIDENCE_REASON:" = false)
    (hSU : pyStartsWith (pyStrip bad) "SUMMARY:" = false)
    (hVA : pyStartsWith (pyStrip bad) "VALIDITY:" = false)
    (hRE : pyStartsWith (pyStrip bad) "REASONING:" = false)
    (hfail : ∀ c s, pySplitSep (pyReplace (pyStrip bad) "- " "") ":" = [c, s] →
      pyFloat (pyStrip s) = none) :
    parseAnalysis pyFloat (pre ++ bad :: post) = parseAnalysis pyFloat (pre ++ post) := by
  have hno : ∀ st, parseLine pyFloat st bad = st := by
    intro st
    simp only [parseLine, hR, hCS, hOC, hCR, hSU, hVA, hRE, Bool.false_eq_true, if_false,
      Bool.and_false]
    by_cases hcs : (st.in_cs && pyStartsWith (pyStrip bad) "- ") = true
    · simp only [hcs, if_true]
      cases hsp : pySplitSep (pyReplace (pyStrip bad) "- " "") ":" with
      | nil => rfl
      | cons c rest =>
        cases rest with
        | nil => rfl
        | cons s rest2 =>
          cases rest2 with
          | nil => simp only [hfail c s hsp]
          | cons x rest3 => rfl
    · simp [hcs]
  unfold parseAnalysis
  rw [List.foldl_append, List.foldl_append, List.foldl_cons, hno]

/-- Witness for C8: a malformed confidence line between two good lines is
dropped while the good lines parse identically. -/
theorem malformed_line_skipped_witness :
    (pyStartsWith (pyStrip "- Study Design: abc") "RELEVANCE:" = false ∧
      pyStartsWith (pyStrip "- Study Design: abc") "CONFIDENCE_SCORES:" = false ∧
      pyStartsWith (pyStrip "- Study Design: abc") "OVERALL_CONFIDENCE:" = false ∧
      pyStartsWith (pyStrip "- Study Design: abc") "CONFIDENCE_REASON:" = false ∧
      pyStartsWith (pyStrip "- Study Design: abc") "SUMMARY:" = false ∧
      pyStartsWith (pyStrip "- Study Design: abc") "VALIDITY:" = false ∧
      pyStartsWith (pyStrip "- Study Design: abc") "REASONING:" = false ∧
      (∀ c s, pySplitSep (pyReplace (pyStrip "- Study Design: abc") "- " "") ":" = [c, s] →
        pyFloatModel (pyStrip s) = none)) ∧
    parseAnalysis pyFloatModel
        (["RELEVANCE: DIRECT", "CONFIDENCE_SCORES:"] ++
          "- Study Design: abc" :: ["VALIDITY: SUPPORTS"]) =
      parseAnalysis pyFloatModel
        (["RELEVANCE: DIRECT", "CONFIDENCE_SCORES:"] ++ ["VALIDITY: SUPPORTS"]) := by
  have hf : ∀ c s, pySplitSep (pyReplace (pyStrip "- Study Design: abc") "- " "") ":" = [c, s] →
      pyFloatModel (pyStrip s) = none := by
    intro c s h
    rw [show pySplitSep (pyReplace (pyStrip "- Study Design: abc") "- " "") ":" =
        ["Study Design", " abc"] from by decide] at h
    injection h with h1 h2
    injection h2 with h2 h3
    subst h2
    decide
  exact ⟨⟨by decide, by decide, by decide, by decide, by decide, by decide, by decide, hf⟩,
    malformed_line_skipped pyFloatModel _ _ _ (by decide) (by decide) (by decide) (by decide)
      (by decide) (by decide) (by decide) hf⟩

lemma parseLine_overall_bounded (pyFloat : String → Option ℚ) (st : ParseState) (line : String)
    (hst : 0 ≤ st.overall_confidence ∧ st.overall_confidence ≤ 1)
    (h : pyStartsWith (pyStrip line) "OVERALL_CONFIDENCE:" = true →
      ∀ v, pyFloat (pyStrip (pyReplace (pyStrip line) "OVERALL_CONFIDENCE:" "")) = some v →
        0 ≤ v ∧ v ≤ 1) :
    0 ≤ (parseLine pyFloat st line).overall_confidence ∧
      (parseLine pyFloat st line).overall_confidence ≤ 1 := by
  simp only [parseLine]
  split
  · exact hst
  split
  · exact hst
  split
  · next hOC =>
    split
    · next v hv => exact h hOC v hv
    · next hv => exact ⟨le_refl 0, by norm_num⟩
  split
  · split
    · split
      · exact hst
      · exact hst
    · exact hst
  split
  · exact hst
  split
  · exact hst
  split
  · exact hst
  split
  · exact hst
  · exact hst

/-- C9 amended: the parser stores the oracle's OVERALL_CONFIDENCE value
unclamped (defaulting to 0.0 when absent or unparsable), so the final
`overall_confidence` lies in `[0, 1]` exactly under the assumption that every
parsable OVERALL_CONFIDENCE value appearing in the text lies in `[0, 1]` —
i.e. when the oracle complies with its prompt contract; the parser itself
enforces no bound. -/
theorem overall_confidence_bounded_amended (pyFloat : String → Option ℚ) (ls : List String)
    (h : ∀ line ∈ ls, pyStartsWith (pyStrip line) "OVERALL_CONFIDENCE:" = true →
      ∀ v, pyFloat (pyStrip (pyReplace (pyStrip line) "OVERALL_CONFIDENCE:" "")) = some v →
        0 ≤ v ∧ v ≤ 1) :
    0 ≤ (parseAnalysis pyFloat ls).overall_confidence ∧
      (parseAnalysis pyFloat ls).overall_confidence ≤ 1 := by
  unfold parseAnalysis
  have main : ∀ (l : List String) (st : ParseState),
      (∀ line ∈ l, pyStartsWith (pyStrip line) "OVERALL_CONFIDENCE:" = true →
        ∀ v, pyFloat (pyStrip (pyReplace (pyStrip line) "OVERALL_CONFIDENCE:" "")) = some v →
          0 ≤ v ∧ v ≤ 1) →
      (0 ≤ st.overall_confidence ∧ st.overall_confidence ≤ 1) →
      0 ≤ (l.foldl (parseLine pyFloat) st).overall_confidence ∧
        (l.foldl (parseLine pyFloat) st).overall_confidence ≤ 1 := by
    intro l
    induction l with
    | nil => intro st _ hst; exact hst
    | cons x xs ih =>
      intro st hl hst
      exact ih _ (fun y hy => hl y (by simp [hy]))
        (parseLine_overall_bounded pyFloat st x hst (hl x (by simp)))
  exact main ls initState h ⟨by decide, by decide⟩

/-- Witness for the amended C9 theorem on a compliant oracle line. -/
theorem overall_confidence_bounded_amended_witness :
    (∀ line ∈ ["OVERALL_CONFIDENCE: 0.7"],
      pyStartsWith (pyStrip line) "OVERALL_CONFIDENCE:" = true →
      ∀ v, pyFloatModel (pyStrip (pyReplace (pyStrip line) "OVERALL_CONFIDENCE:" "")) = some v →
        0 ≤ v ∧ v ≤ 1) ∧
    (0 ≤ (parseAnalysis pyFloatModel ["OVERALL_CONFIDENCE: 0.7"]).overall_confidence ∧
      (parseAnalysis pyFloatModel ["OVERALL_CONFIDENCE: 0.7"]).overall_confidence ≤ 1) := by
  have hh : ∀ line ∈ ["OVERALL_CONFIDENCE: 0.7"],
      pyStartsWith (pyStrip line) "OVERALL_CONFIDENCE:" = true →
      ∀ v, pyFloatModel (pyStrip (pyReplace (pyStrip line) "OVERALL_CONFIDENCE:" "")) = some v →
        0 ≤ v ∧ v ≤ 1 := by
    intro line hline
    simp only [List.mem_singleton] at hline
    subst hline
    intro _ v hv
    rw [show pyFloatModel
        (pyStrip (pyReplace (pyStrip "OVERALL_CONFIDENCE: 0.7") "OVERALL_CONFIDENCE:" "")) =
        some (mkRat 7 10) from by decide] at hv
    cases hv
    exact ⟨by decide, by decide⟩
  exact ⟨hh, overall_confidence_bounded_amended pyFloatModel _ hh⟩

/-- C9 counterexample: the oracle text `"OVERALL_CONFIDENCE: 2.5"` parses to
`overall_confidence = 5/2`, outside `[0, 1]` — the parser applies no clamping,
so the claimed invariant fails for a non-compliant oracle output. -/
theorem overall_confidence_counterexample :
    (parseAnalysisText pyFloatModel "OVERALL_CONFIDENCE: 2.5").overall_confidence =
      mkRat 5 2 ∧
    ¬ (parseAnalysisText pyFloatModel "OVERALL_CONFIDENCE: 2.5").overall_confidence ≤ 1 :=
  ⟨by decide, by decide⟩

/-- C10 amended: a failing literature-search fetch propagates to the caller
as a hard error (`raise_for_status`), but a failing per-document analysis
oracle call is caught by `analyze_paper`'s try/except and converted to the
default NOT RELEVANT / UNKNOWN analysis carrying the error message — it is
swallowed, not propagated. -/
theorem service_error_propagation_amended {α : Type} (parseBody : String → List α)
    (pmids : List String) (e : String) (pyFloat : String → Option ℚ)
    (hp : pmids ≠ []) :
    efetch parseBody pmids (Except.error e) = Except.error e ∧
    analyze_paper pyFloat (Except.error e) = errorAnalysis e := by
  constructor
  · unfold efetch
    rw [if_neg hp]
  · rfl

/-- Witness for the amended C10 theorem at concrete inputs. -/
theorem service_error_propagation_amended_witness :
    (["1"] ≠ ([] : List String)) ∧
    (efetch (fun _ => ([] : List Nat)) ["1"] (Except.error "boom") = Except.error "boom" ∧
      analyze_paper pyFloatModel (Except.error "boom") = errorAnalysis "boom") :=
  ⟨by decide,
    service_error_propagation_amended (fun _ => ([] : List Nat)) ["1"] "boom" pyFloatModel
      (by decide)⟩

/-- C10 counterexample: a network failure in the per-document analysis oracle
does NOT propagate: `analyze_paper` returns a successful default analysis
record (its return type cannot even carry an error), contradicting the claim
that such failures reach the caller as hard errors and are never swallowed. -/
theorem analysis_error_swallowed_counterexample :
    analyze_paper pyFloatModel (Except.error "network failure") =
      Analysis.mk "NOT RELEVANT" [] 0 "Error analyzing paper" "Error analyzing paper"
        "UNKNOWN" "network failure" := rfl

end NCV
